import Mathlib

/- Shallow embedding of MorphMan's src/morph/morphemes.py.

   Modelling conventions, chosen to match the Python runtime semantics:
   * Python str is Lean String, Python int is Lean Int (Nat where the source
     guarantees non-negativity, e.g. line counters and object ids).
   * A Python dict is an association list looked up with the key type's
     __eq__; insertion of a fresh key appends, overwriting keeps the slot.
   * The Location classes define no __eq__ or __hash__, so Python compares
     Location objects (and the mutable set objects that hold them) by object
     identity.  The embedding therefore carries an explicit object store:
     Location objects and set objects live in an ObjStore and are referred to
     by numeric ids; set membership is membership of ids.
   * Fallible code returns Except PyErr; the recursive rule engine carries a
     fuel argument so that it is structurally recursive (the source relies on
     the span-shrink guard for termination, which we prove separately). -/

/-- Exceptions the embedded fragments can raise, plus fuel exhaustion for the
    explicit recursion bound of the rule engine. -/
inductive PyErr where
  | fuel
  | unboundLocal
  | typeError
  | assertionError
  | decodeError
  | keyError
deriving DecidableEq, Repr

/-- Morpheme value object (morphemes.py, Morpheme.__init__): base, inflected,
    part of speech, sub part of speech, reading, in the constructor's order. -/
structure Morpheme where
  base : String
  inflected : String
  pos : String
  subPos : String
  read : String
deriving DecidableEq, Repr

/-- Morpheme.__eq__: compares pos, subPos, read and base; the inflected field
    is deliberately commented out in the source. -/
def morphEq (a b : Morpheme) : Bool :=
  a.pos == b.pos && a.subPos == b.subPos && a.read == b.read && a.base == b.base

/-- The tuple that Morpheme.__hash__ hashes: (pos, subPos, read, base).
    Equal tuples give equal Python hash values, so the tuple itself is the
    faithful abstraction of the hash. -/
def morphHash (m : Morpheme) : String × String × String × String :=
  (m.pos, m.subPos, m.read, m.base)

/-- The identity key of a morpheme, for specification reasoning; it carries
    exactly the fields Morpheme.__eq__ compares. -/
def mkey (m : Morpheme) : String × String × String × String :=
  (m.pos, m.subPos, m.read, m.base)

/-- The literal placeholder morpheme built by the replacement-rule engine:
    Morpheme(mstr, mstr, 'UNKNOWN', 'UNKNOWN', mstr). -/
def mkUnknown (mstr : String) : Morpheme :=
  ⟨mstr, mstr, "UNKNOWN", "UNKNOWN", mstr⟩

/-- Location variants (morphemes.py).  Every variant stores the attributes its
    __init__ assigns, including the derived maturity of AnkiDeck. -/
inductive Location where
  | nowhere (maturity : Int) (weight : Int)
  | corpus (name : String) (maturity : Int) (weight : Int)
  | textFile (filePath : String) (lineNo : Int) (maturity : Int) (weight : Int)
  | ankiDeck (noteId : Int) (fieldName : String) (fieldValue : String) (guid : String)
      (maturities : List Int) (maturity : Int) (weight : Int)
deriving DecidableEq, Repr

/-- Nowhere.__init__( self, maturity=0, weight=0 ). -/
def Nowhere (maturity : Int := 0) (weight : Int := 0) : Location :=
  .nowhere maturity weight

/-- Corpus.__init__( self, name, weight ); maturity is fixed at 0. -/
def Corpus (name : String) (weight : Int) : Location :=
  .corpus name 0 weight

/-- TextFile.__init__( self, filePath, lineNo, maturity, weight=1 ). -/
def TextFile (filePath : String) (lineNo : Int) (maturity : Int) (weight : Int := 1) : Location :=
  .textFile filePath lineNo maturity weight

/-- max(maturities) if maturities else 0, as in AnkiDeck.__init__. -/
def pyMaxOrZero : List Int → Int
  | [] => 0
  | x :: xs => xs.foldl max x

/-- AnkiDeck.__init__( self, noteId, fieldName, fieldValue, guid, maturities,
    weight=1 ); the stored maturity is max(maturities) if maturities else 0. -/
def AnkiDeck (noteId : Int) (fieldName fieldValue guid : String)
    (maturities : List Int) (weight : Int := 1) : Location :=
  .ankiDeck noteId fieldName fieldValue guid maturities (pyMaxOrZero maturities) weight

/-- The maturity attribute every Location object carries after construction. -/
def Location.maturity : Location → Int
  | .nowhere m _ => m
  | .corpus _ m _ => m
  | .textFile _ _ m _ => m
  | .ankiDeck _ _ _ _ _ m _ => m

/-- The weight attribute every Location object carries after construction. -/
def Location.weight : Location → Int
  | .nowhere _ w => w
  | .corpus _ _ w => w
  | .textFile _ _ _ w => w
  | .ankiDeck _ _ _ _ _ _ w => w

/-- State of the module-level extraction cache: MorphCache.cache together with
    the module-level write counter n and, observationally, the number of times
    MorphCache.save has been called. -/
structure CacheState where
  cache : List ((String × String) × List Morpheme)
  n : Nat
  saves : Nat
deriving DecidableEq, Repr

/-- Python dict lookup cache[(description, expression)]. -/
def lookupCache : List ((String × String) × List Morpheme) → String × String →
    Option (List Morpheme)
  | [], _ => none
  | e :: c, k => if e.1 = k then some e.2 else lookupCache c k

/-- Python dict assignment cache[key] = ms: replace the slot if the key is
    present, otherwise append. -/
def cacheInsert (c : List ((String × String) × List Morpheme)) (k : String × String)
    (v : List Morpheme) : List ((String × String) × List Morpheme) :=
  if (lookupCache c k).isSome then
    c.map (fun p => if p.1 = k then (k, v) else p)
  else
    c ++ [(k, v)]

/-- Lines 121-125 of morphemes.py: store the freshly computed sequence under
    its key, bump the global counter n, and call save() on every 100th store. -/
def cacheStore (st : CacheState) (k : String × String) (ms : List Morpheme) : CacheState :=
  { cache := cacheInsert st.cache k ms
    n := st.n + 1
    saves := if (st.n + 1) % 100 = 0 then st.saves + 1 else st.saves }

/-- One replacement rule (filter_tags, regex, morphemes) from the
    ReplaceRules configuration.  The regex itself is an external collaborator;
    the rule carries the behaviour of re.split(regex, . , maxsplit=1,
    flags=re.UNICODE) as a function. -/
structure ReplaceRule where
  filterTags : List String
  split : String → List String
  morphemes : List String

/-- The body of the rule loop of getMorphemes (morphemes.py lines 99-117) for
    one rule.  The accumulator carries the cache state and the value of the
    local variable ms: none means ms is still unassigned (no break yet).
    recur is the recursive call getMorphemes(morphemizer, span, note_tags). -/
def ruleStep
    (recur : CacheState → String → Except PyErr (Option (List Morpheme) × CacheState))
    (tags : List String) (expr : String)
    (acc : Except PyErr (CacheState × Option (List Morpheme))) (r : ReplaceRule) :
    Except PyErr (CacheState × Option (List Morpheme)) :=
  match acc with
  | .error e => .error e
  | .ok (st, some ms) => .ok (st, some ms)
  | .ok (st, none) =>
    if ¬ (r.filterTags.all fun t => tags.contains t) then .ok (st, none)
    else
      match r.split expr with
      | [_] => .ok (st, none)
      | [s0, s1] =>
        if expr.length ≤ s0.length then .ok (st, none)
        else if expr.length ≤ s1.length then .ok (st, none)
        else
          match recur st s0 with
          | .error e => .error e
          | .ok (aOpt, st1) =>
            match recur st1 s1 with
            | .error e => .error e
            | .ok (cOpt, st2) =>
              match aOpt with
              | none => .error .typeError
              | some aM =>
                match cOpt with
                | none => .error .typeError
                | some cM => .ok (st2, some (aM ++ r.morphemes.map mkUnknown ++ cM))
      | _ => .error .assertionError

/-- getMorphemes (morphemes.py lines 89-126).  Parameters: fuel bounds the
    recursion depth; mdesc is morphemizer.getDescription(); analyzer is
    morphemizer.getMorphemesFromExpr (which may return None); rrules is
    jcfg('ReplaceRules').  Returns the value of ms (None possible) and the
    updated cache state.  Crucially, the else on line 118 belongs to the if on
    line 97, not to the for loop: when noteTags and rrules are both present
    and the loop finishes without a break, ms is unbound and line 120 raises
    UnboundLocalError. -/
def getMorphemes : Nat → String → (String → Option (List Morpheme)) →
    Option (List ReplaceRule) → CacheState → Option (List String) → String →
    Except PyErr (Option (List Morpheme) × CacheState)
  | 0, _, _, _, _, _, _ => .error .fuel
  | fuel+1, mdesc, analyzer, rrules, st, noteTags, expr =>
    match lookupCache st.cache (mdesc, expr) with
    | some ms => .ok (some ms, st)
    | none =>
      match noteTags, rrules with
      | some tags, some rs =>
        match rs.foldl
            (ruleStep (fun st' e => getMorphemes fuel mdesc analyzer rrules st' (some tags) e)
              tags expr)
            (.ok (st, none)) with
        | .error e => .error e
        | .ok (_, none) => .error .unboundLocal
        | .ok (st1, some ms) => .ok (some ms, cacheStore st1 (mdesc, expr) ms)
      | _, _ =>
        match analyzer expr with
        | some ms => .ok (some ms, cacheStore st (mdesc, expr) ms)
        | none => .ok (none, st)

/-- Object store for the mutable-object semantics of MorphDb.  locObjs holds
    every Location object ever constructed (its id is its index); sets holds
    every Python set object that a db maps to (its id is its index); a set's
    contents is the list of Location object ids it currently holds, without
    duplicates.  Location classes define no __eq__/__hash__, so set membership
    in Python is membership by object identity, i.e. by id here. -/
structure ObjStore where
  locObjs : List Location
  sets : List (List Nat)
deriving DecidableEq, Repr

/-- Contents of the set object sid. -/
def ObjStore.setsGet (σ : ObjStore) (sid : Nat) : List Nat :=
  σ.sets.getD sid []

/-- The Location object lid. -/
def ObjStore.locGet (σ : ObjStore) (lid : Nat) : Location :=
  σ.locObjs.getD lid (.nowhere 0 0)

/-- Construct a new Location object, returning its id. -/
def ObjStore.allocLoc (σ : ObjStore) (l : Location) : ObjStore × Nat :=
  ({ σ with locObjs := σ.locObjs ++ [l] }, σ.locObjs.length)

/-- Construct a new set object with the given contents, returning its id. -/
def ObjStore.allocSet (σ : ObjStore) (content : List Nat) : ObjStore × Nat :=
  ({ σ with sets := σ.sets ++ [content] }, σ.sets.length)

/-- set.add(loc): insert the object id into the set object sid unless the set
    already holds that very object. -/
def ObjStore.setAdd (σ : ObjStore) (sid lid : Nat) : ObjStore :=
  { σ with
    sets := σ.sets.set sid
      (if lid ∈ σ.setsGet sid then σ.setsGet sid else σ.setsGet sid ++ [lid]) }

/-- MorphDb.db: a dict from Morpheme (keyed by Morpheme.__eq__/__hash__) to
    the id of the set object holding its locations. -/
structure MorphDb where
  db : List (Morpheme × Nat)
deriving DecidableEq, Repr

/-- Python dict lookup self.db[m], comparing keys with Morpheme.__eq__. -/
def lookupM : List (Morpheme × Nat) → Morpheme → Option Nat
  | [], _ => none
  | e :: l, m => if morphEq e.1 m then some e.2 else lookupM l m

/-- One iteration of addMLs for the pair ml: self.db[m].add(loc), or on
    KeyError self.db[m] = set([loc]). -/
def addMLStep (acc : ObjStore × MorphDb) (ml : Morpheme × Nat) : ObjStore × MorphDb :=
  match lookupM acc.2.db ml.1 with
  | some sid => (acc.1.setAdd sid ml.2, acc.2)
  | none =>
    let p := acc.1.allocSet [ml.2]
    (p.1, ⟨acc.2.db ++ [(ml.1, p.2)]⟩)

/-- MorphDb.addMLs (morphemes.py lines 241-246). -/
def MorphDb.addMLs (σ : ObjStore) (d : MorphDb) (mls : List (Morpheme × Nat)) :
    ObjStore × MorphDb :=
  mls.foldl addMLStep (σ, d)

/-- One iteration of MorphDb.merge's loop for the entry (m, locs-set) of the
    other db: on hit, count len(locs - self.db[m]) and update self.db[m] in
    place; on KeyError, alias the very set object of other into self.db. -/
def mergeStep (acc : ObjStore × MorphDb × Nat) (e : Morpheme × Nat) :
    ObjStore × MorphDb × Nat :=
  let σ := acc.1
  let a := acc.2.1
  let locs := σ.setsGet e.2
  match lookupM a.db e.1 with
  | some asid =>
    let cur := σ.setsGet asid
    let fresh := locs.filter fun lid => decide (lid ∉ cur)
    ({ σ with sets := σ.sets.set asid (cur ++ fresh) }, a, acc.2.2 + fresh.length)
  | none => (σ, ⟨a.db ++ [e]⟩, acc.2.2 + locs.length)

/-- MorphDb.merge (morphemes.py lines 266-275): fold the other db's entries
    into self, returning the number of added entries. -/
def MorphDb.merge (σ : ObjStore) (a b : MorphDb) : ObjStore × MorphDb × Nat :=
  b.db.foldl mergeStep (σ, a, 0)

/-- The location-object ids currently recorded for m in d, i.e. the contents
    of the set object self.db[m] ([] when the key is absent). -/
def MorphDb.locsIn (σ : ObjStore) (d : MorphDb) (m : Morpheme) : List Nat :=
  match lookupM d.db m with
  | some sid => σ.setsGet sid
  | none => []

/-- Structural view of a db: every key paired with the field values of the
    Location objects in its set, forgetting object identities.  Used to state
    that two databases are identical copies of each other. -/
def MorphDb.dbView (σ : ObjStore) (d : MorphDb) : List (Morpheme × List Location) :=
  d.db.map fun e => (e.1, (σ.setsGet e.2).map σ.locGet)

/-- MorphDb.maturity (morphemes.py lines 291-292):
    math.sqrt(sum(getattr(loc, 'maturity', 1) ** 2 for loc in self.db[m])).
    Every Location variant assigns self.maturity in __init__, so the getattr
    default of 1 can never fire for the variants modelled here.  A missing key
    raises KeyError, as self.db[m] does. -/
noncomputable def MorphDb.maturity (σ : ObjStore) (d : MorphDb) (m : Morpheme) :
    Except PyErr Real :=
  match lookupM d.db m with
  | none => .error .keyError
  | some sid =>
    .ok (Real.sqrt (((σ.setsGet sid).map fun lid => ((σ.locGet lid).maturity : ℝ) ^ 2).sum))

/-- line.strip(): drop leading and trailing whitespace. -/
def pyStrip (s : String) : String :=
  ⟨((s.data.dropWhile Char.isWhitespace).reverse.dropWhile Char.isWhitespace).reverse⟩

/-- Construct one fresh TextFile location object per morpheme of a line, as
    the generator expression on line 284 does, pairing each morpheme with its
    own new object. -/
def allocTextFiles (σ : ObjStore) (ms : List Morpheme) (path : String) (lineNo : Int)
    (maturity : Int) : ObjStore × List (Morpheme × Nat) :=
  match ms with
  | [] => (σ, [])
  | m :: rest =>
    let p := σ.allocLoc (TextFile path lineNo maturity)
    let q := allocTextFiles p.1 rest path lineNo maturity
    (q.1, (m, p.2) :: q.2)

/-- Processing of one (0-based index, raw line) pair inside importFile:
    ms = getMorphemes(morphemizer, line.strip()) — note_tags is absent here —
    then addMLs of (m, TextFile(path, i+1, maturity)) for m in ms.  A None
    result makes the iteration raise TypeError. -/
def importLine (fuel : Nat) (mdesc : String) (analyzer : String → Option (List Morpheme))
    (rrules : Option (List ReplaceRule)) (path : String) (maturity : Int)
    (acc : ObjStore × CacheState × MorphDb) (iline : Nat × String) :
    Except PyErr (ObjStore × CacheState × MorphDb) :=
  match getMorphemes fuel mdesc analyzer rrules acc.2.1 none (pyStrip iline.2) with
  | .error e => .error e
  | .ok (none, _) => .error .typeError
  | .ok (some ms, cst') =>
    let p := allocTextFiles acc.1 ms path ((iline.1 : Int) + 1) maturity
    let q := MorphDb.addMLs p.1 acc.2.2 p.2
    .ok (q.1, cst', q.2)

/-- MorphDb.importFile (morphemes.py lines 277-284).  content is the outcome
    of codecs.open(path, 'r', 'utf-8').readlines(): a UnicodeDecodeError is
    raised by the read itself, before the db is touched in any way; otherwise
    the lines are processed in order with 1-indexed line numbers. -/
def MorphDb.importFile (fuel : Nat) (mdesc : String)
    (analyzer : String → Option (List Morpheme)) (rrules : Option (List ReplaceRule))
    (σ : ObjStore) (cst : CacheState) (d : MorphDb) (path : String)
    (content : Except Unit (List String)) (maturity : Int) :
    Except PyErr (ObjStore × CacheState × MorphDb) :=
  match content with
  | .error _ => .error .decodeError
  | .ok lines =>
    lines.enum.foldlM (importLine fuel mdesc analyzer rrules path maturity) (σ, cst, d)

/- List and lookup helper lemmas. -/

theorem morphEq_iff (a b : Morpheme) : morphEq a b = true ↔ mkey a = mkey b := by
  simp [morphEq, mkey, Prod.ext_iff, and_assoc]

theorem morphEq_refl (m : Morpheme) : morphEq m m = true := by
  simp [morphEq]

theorem morphEq_congr_right {m m' : Morpheme} (h : mkey m = mkey m') (x : Morpheme) :
    morphEq x m = morphEq x m' := by
  rw [Bool.eq_iff_iff, morphEq_iff, morphEq_iff, h]

theorem lookupM_congr {m m' : Morpheme} (h : mkey m = mkey m') :
    ∀ l : List (Morpheme × Nat), lookupM l m = lookupM l m'
  | [] => rfl
  | e :: l => by
    rw [lookupM, lookupM, morphEq_congr_right h, lookupM_congr h l]

theorem lookupM_append_of_some {l1 : List (Morpheme × Nat)} {m : Morpheme} {s : Nat}
    (h : lookupM l1 m = some s) (l2 : List (Morpheme × Nat)) :
    lookupM (l1 ++ l2) m = some s := by
  induction l1 with
  | nil => exact absurd h (by simp [lookupM])
  | cons e t ih =>
    rw [lookupM] at h
    rw [List.cons_append, lookupM]
    split at h <;> simp_all

theorem lookupM_append_of_none {l1 : List (Morpheme × Nat)} {m : Morpheme}
    (h : lookupM l1 m = none) (l2 : List (Morpheme × Nat)) :
    lookupM (l1 ++ l2) m = lookupM l2 m := by
  induction l1 with
  | nil => rfl
  | cons e t ih =>
    rw [lookupM] at h
    rw [List.cons_append, lookupM]
    split at h <;> simp_all

theorem lookupM_eq_none_iff (m : Morpheme) :
    ∀ l : List (Morpheme × Nat), lookupM l m = none ↔ ∀ e ∈ l, mkey e.1 ≠ mkey m
  | [] => by simp [lookupM]
  | e :: l => by
    rw [lookupM]
    by_cases h : morphEq e.1 m = true
    · simp [h, (morphEq_iff _ _).1 h]
    · have hf : morphEq e.1 m = false := by simpa using h
      have hk : mkey e.1 ≠ mkey m := fun hk => h ((morphEq_iff _ _).2 hk)
      simp [hf, hk, lookupM_eq_none_iff m l]

theorem lookupM_mem_of_some {m : Morpheme} {s : Nat} :
    ∀ {l : List (Morpheme × Nat)}, lookupM l m = some s →
      ∃ m', (m', s) ∈ l ∧ mkey m' = mkey m
  | [], h => by simp [lookupM] at h
  | e :: l, h => by
    rw [lookupM] at h
    split at h
    · rename_i he
      have h2 : e.2 = s := by simpa using h
      subst h2
      exact ⟨e.1, List.mem_cons_self e l, (morphEq_iff _ _).1 he⟩
    · obtain ⟨m', hm', hk⟩ := lookupM_mem_of_some h
      exact ⟨m', List.mem_cons_of_mem _ hm', hk⟩

theorem lookupM_snd_mem {m : Morpheme} {s : Nat} {l : List (Morpheme × Nat)}
    (h : lookupM l m = some s) : s ∈ l.map Prod.snd := by
  obtain ⟨m', hm', _⟩ := lookupM_mem_of_some h
  exact List.mem_map.2 ⟨(m', s), hm', rfl⟩

theorem getD_set_self {α : Type} (v d : α) :
    ∀ (l : List α) (i : Nat), i < l.length → (l.set i v).getD i d = v
  | [], i, h => by simp at h
  | x :: t, 0, _ => rfl
  | x :: t, i + 1, h => getD_set_self v d t i (by simpa using h)

theorem getD_set_ne {α : Type} (v d : α) :
    ∀ (l : List α) (i j : Nat), i ≠ j → (l.set i v).getD j d = l.getD j d
  | [], _, _, _ => by simp
  | x :: t, 0, 0, h => absurd rfl h
  | x :: t, 0, j + 1, _ => rfl
  | x :: t, i + 1, 0, _ => rfl
  | x :: t, i + 1, j + 1, h => getD_set_ne v d t i j (by omega)

theorem getD_append_left {α : Type} (d : α) :
    ∀ (l1 l2 : List α) (i : Nat), i < l1.length → (l1 ++ l2).getD i d = l1.getD i d
  | [], _, i, h => by simp at h
  | x :: t, l2, 0, _ => rfl
  | x :: t, l2, i + 1, h => getD_append_left d t l2 i (by simpa using h)

theorem getD_append_len {α : Type} (d v : α) :
    ∀ l : List α, (l ++ [v]).getD l.length d = v
  | [] => rfl
  | x :: t => getD_append_len d v t

theorem getD_mem {α : Type} (d : α) :
    ∀ (l : List α) (i : Nat), i < l.length → l.getD i d ∈ l
  | [], i, h => by simp at h
  | x :: t, 0, _ => List.mem_cons_self x t
  | x :: t, i + 1, h =>
    List.mem_cons_of_mem x (getD_mem d t i (by simpa using h))

/- Concrete fixtures used by the rule-engine claims. -/

/-- A rule whose filter_tags are not a subset of the note's tags. -/
def ruleFilteredOut : ReplaceRule := ⟨["tagX"], fun s => [s], ["A"]⟩

/-- A rule whose regex never matches: re.split returns the whole string. -/
def ruleNoMatch : ReplaceRule := ⟨[], fun s => [s], ["B"]⟩

/-- A rule whose regex matches with zero width at position 0: the suffix span
    equals the whole text, so the shrink guard must skip it. -/
def ruleShrinkGuarded : ReplaceRule := ⟨[], fun s => ["", s], ["C"]⟩

/-- A rule whose regex matches and consumes the entire (non-empty) input:
    both non-matching spans are empty. -/
def ruleWholeMatchConsume : ReplaceRule :=
  ⟨[], fun s => if s.length = 0 then [s] else ["", ""], ["X"]⟩

/-- A stand-in analyzer extracting one literal morpheme per expression. -/
def stubAnalyzer : String → Option (List Morpheme) := fun s => some [mkUnknown s]

/-- The module's starting cache state: empty cache, counter 0, no saves. -/
def emptyCache : CacheState := ⟨[], 0, 0⟩

/-- C1: REFUTED — code bug.  With noteTags and a rule list both present but no
    rule applicable (one rule filtered out by tags, one failing to match, one
    skipped by the shrink guard), getMorphemes does NOT fall back to the
    analyzer: the local ms is never assigned (the else of line 118 belongs to
    the if of line 97, not the for loop) and line 120 raises
    UnboundLocalError, for every recursion bound.  With noteTags absent the
    same call returns the analyzer's result and caches it. -/
theorem getMorphemes_no_rule_raises_unbound (f : Nat) :
    getMorphemes (f + 1) "an" stubAnalyzer
        (some [ruleFilteredOut, ruleNoMatch, ruleShrinkGuarded])
        emptyCache (some []) "hello" = .error .unboundLocal ∧
    getMorphemes (f + 1) "an" stubAnalyzer
        (some [ruleFilteredOut, ruleNoMatch, ruleShrinkGuarded])
        emptyCache none "hello" =
      .ok (some [mkUnknown "hello"], ⟨[(("an", "hello"), [mkUnknown "hello"])], 1, 0⟩) :=
  ⟨rfl, rfl⟩

/-- C3: the shrink guard does skip a rule whose split yields a span as long as
    the input, and no split can make the engine recurse infinitely (the result
    is the same for every recursion bound); but after such a skip the engine
    does NOT fall through to the analyzer — it raises UnboundLocalError (code
    bug, same root cause as C1).  A rule whose match consumes the whole input
    (both spans empty) is applied, recurses on the two empty spans, and again
    terminates with UnboundLocalError rather than analyzer fallback. -/
theorem getMorphemes_whole_match_terminates (f : Nat) :
    getMorphemes (f + 1) "an" stubAnalyzer (some [ruleShrinkGuarded]) emptyCache
        (some []) "ab" = .error .unboundLocal ∧
    getMorphemes (f + 2) "an" stubAnalyzer (some [ruleWholeMatchConsume]) emptyCache
        (some []) "ab" = .error .unboundLocal :=
  ⟨rfl, rfl⟩

/- C7: Location defaults and AnkiDeck maturity. -/

/-- C7 counterexample: a Nowhere location constructed without an explicit
    weight argument has weight 0, not 1. -/
theorem nowhere_default_weight_not_one : ¬ (Nowhere : Location).weight = 1 := by
  decide

theorem pyMaxOrZero_mem_aux (acc : Int) :
    ∀ xs : List Int, xs.foldl max acc = acc ∨ xs.foldl max acc ∈ xs
  | [] => Or.inl rfl
  | y :: ys => by
    rcases pyMaxOrZero_mem_aux (max acc y) ys with h | h
    · rcases max_choice acc y with hm | hm
      · exact Or.inl (by rw [List.foldl_cons, h, hm])
      · exact Or.inr (by rw [List.foldl_cons, h, hm]; exact List.mem_cons_self y ys)
    · exact Or.inr (List.mem_cons_of_mem y h)

theorem pyMaxOrZero_mem {l : List Int} (h : l ≠ []) : pyMaxOrZero l ∈ l := by
  match l with
  | [] => exact absurd rfl h
  | x :: xs =>
    rw [pyMaxOrZero]
    rcases pyMaxOrZero_mem_aux x xs with h2 | h2
    · rw [h2]; exact List.mem_cons_self x xs
    · exact List.mem_cons_of_mem x h2

theorem foldl_max_ge (acc : Int) :
    ∀ xs : List Int, acc ≤ xs.foldl max acc ∧ ∀ x ∈ xs, x ≤ xs.foldl max acc
  | [] => ⟨le_refl acc, by simp⟩
  | y :: ys => by
    obtain ⟨h1, h2⟩ := foldl_max_ge (max acc y) ys
    refine ⟨le_trans (le_max_left acc y) h1, ?_⟩
    intro x hx
    rcases List.mem_cons.1 hx with rfl | hx
    · exact le_trans (le_max_right acc x) h1
    · exact h2 x hx

theorem pyMaxOrZero_ge {l : List Int} : ∀ x ∈ l, x ≤ pyMaxOrZero l := by
  match l with
  | [] => simp
  | x :: xs =>
    intro z hz
    rw [pyMaxOrZero]
    rcases List.mem_cons.1 hz with rfl | hz
    · exact (foldl_max_ge z xs).1
    · exact (foldl_max_ge x xs).2 z hz

/-- C7 (amended): every Location variant exposes maturity and weight, and
    TextFile and AnkiDeck default weight to 1 when constructed without an
    explicit weight; Nowhere, however, defaults to weight 0 (and maturity 0),
    and Corpus takes weight as a required argument with maturity fixed at 0.
    An AnkiDeck location's maturity is the maximum of its per-card maturities
    list, or 0 when that list is empty. -/
theorem location_maturity_weight_spec :
    (Nowhere : Location).weight = 0 ∧ (Nowhere : Location).maturity = 0 ∧
    (∀ name w, (Corpus name w).maturity = 0 ∧ (Corpus name w).weight = w) ∧
    (∀ fp ln mat, (TextFile fp ln mat).weight = 1) ∧
    (∀ nid fn fv g mats, (AnkiDeck nid fn fv g mats).weight = 1) ∧
    (∀ nid fn fv g, (AnkiDeck nid fn fv g []).maturity = 0) ∧
    (∀ nid fn fv g mats, ∀ x ∈ mats, x ≤ (AnkiDeck nid fn fv g mats).maturity) ∧
    (∀ nid fn fv g mats, mats ≠ [] → (AnkiDeck nid fn fv g mats).maturity ∈ mats) := by
  refine ⟨rfl, rfl, fun name w => ⟨rfl, rfl⟩, fun fp ln mat => rfl,
    fun nid fn fv g mats => rfl, fun nid fn fv g => rfl, ?_, ?_⟩
  · intro nid fn fv g mats x hx
    exact pyMaxOrZero_ge x hx
  · intro nid fn fv g mats h
    exact pyMaxOrZero_mem h

/-- Witness for C7's amended theorem at concrete inputs. -/
theorem location_maturity_weight_spec_witness :
    (TextFile "f.txt" 3 10).weight = 1 ∧
    (AnkiDeck 7 "Expression" "abc" "g" [3, 7]).weight = 1 ∧
    (AnkiDeck 7 "Expression" "abc" "g" [3, 7]).maturity ∈ [3, 7] ∧
    (3 : Int) ≤ (AnkiDeck 7 "Expression" "abc" "g" [3, 7]).maturity := by
  refine ⟨location_maturity_weight_spec.2.2.2.1 "f.txt" 3 10,
    location_maturity_weight_spec.2.2.2.2.1 7 "Expression" "abc" "g" [3, 7],
    location_maturity_weight_spec.2.2.2.2.2.2.2 7 "Expression" "abc" "g" [3, 7] (by decide),
    location_maturity_weight_spec.2.2.2.2.2.2.1 7 "Expression" "abc" "g" [3, 7] 3 (by decide)⟩

/- The extraction-cache claims. -/

theorem lookupCache_map_insert (k : String × String) (v : List Morpheme)
    (c : List ((String × String) × List Morpheme)) :
    lookupCache (c.map fun p => if p.1 = k then (k, v) else p) k =
      if (lookupCache c k).isSome then some v else none := by
  induction c with
  | nil => rfl
  | cons e t ih =>
    by_cases he : e.1 = k
    · simp [lookupCache, he]
    · simp [lookupCache, he, ih]

theorem lookupCache_append_of_none {c : List ((String × String) × List Morpheme)}
    {k : String × String} (h : lookupCache c k = none)
    (c2 : List ((String × String) × List Morpheme)) :
    lookupCache (c ++ c2) k = lookupCache c2 k := by
  induction c with
  | nil => rfl
  | cons e t ih =>
    rw [lookupCache] at h
    rw [List.cons_append, lookupCache]
    split at h <;> simp_all

theorem lookupCache_insert (c : List ((String × String) × List Morpheme))
    (k : String × String) (v : List Morpheme) :
    lookupCache (cacheInsert c k v) k = some v := by
  by_cases h : (lookupCache c k).isSome
  · rw [cacheInsert, if_pos h, lookupCache_map_insert, if_pos h]
  · have hn : lookupCache c k = none := Option.not_isSome_iff_eq_none.1 h
    rw [cacheInsert, if_neg h, lookupCache_append_of_none hn, lookupCache]
    simp

/-- One-step unfolding of getMorphemes at positive fuel, for rewriting. -/
theorem getMorphemes_succ_eq (f : Nat) (mdesc : String)
    (analyzer : String → Option (List Morpheme)) (rrules : Option (List ReplaceRule))
    (st : CacheState) (noteTags : Option (List String)) (expr : String) :
    getMorphemes (f + 1) mdesc analyzer rrules st noteTags expr =
      match lookupCache st.cache (mdesc, expr) with
      | some ms => .ok (some ms, st)
      | none =>
        match noteTags, rrules with
        | some tags, some rs =>
          (match rs.foldl
              (ruleStep (fun st' e => getMorphemes f mdesc analyzer rrules st' (some tags) e)
                tags expr)
              (.ok (st, none)) with
            | .error e => .error e
            | .ok (_, none) => .error .unboundLocal
            | .ok (st1, some ms) => .ok (some ms, cacheStore st1 (mdesc, expr) ms))
        | _, _ =>
          match analyzer expr with
          | some ms => .ok (some ms, cacheStore st (mdesc, expr) ms)
          | none => .ok (none, st) := rfl

/-- C9: on a cache hit getMorphemes returns the cached sequence with the state
    untouched; on a miss with noteTags absent it returns the analyzer's result
    and, when that result is not None, stores it under the key via cacheStore;
    cacheStore records the key, bumps the write counter by one and performs a
    save exactly when the bumped counter is a multiple of 100. -/
theorem getMorphemes_cache_spec (f : Nat) (mdesc : String)
    (analyzer : String → Option (List Morpheme)) (rrules : Option (List ReplaceRule))
    (st : CacheState) (expr : String) :
    (∀ noteTags ms, lookupCache st.cache (mdesc, expr) = some ms →
      getMorphemes (f + 1) mdesc analyzer rrules st noteTags expr = .ok (some ms, st)) ∧
    (lookupCache st.cache (mdesc, expr) = none →
      getMorphemes (f + 1) mdesc analyzer rrules st none expr =
        match analyzer expr with
        | some ms => .ok (some ms, cacheStore st (mdesc, expr) ms)
        | none => .ok (none, st)) ∧
    (∀ k ms, lookupCache (cacheStore st k ms).cache k = some ms ∧
      (cacheStore st k ms).n = st.n + 1 ∧
      (cacheStore st k ms).saves = if (st.n + 1) % 100 = 0 then st.saves + 1 else st.saves) := by
  refine ⟨?_, ?_, ?_⟩
  · intro noteTags ms h
    rw [getMorphemes_succ_eq, h]
  · intro h
    rw [getMorphemes_succ_eq, h]
  · intro k ms
    exact ⟨lookupCache_insert st.cache k ms, rfl, rfl⟩

/-- Witness for C9: a concrete hit leaves the state alone; a concrete 100th
    miss stores the result, bumps n from 99 to 100 and triggers one save. -/
theorem getMorphemes_cache_spec_witness :
    getMorphemes 1 "an" stubAnalyzer none
        ⟨[(("an", "x"), [mkUnknown "y"])], 5, 7⟩ (some []) "x" =
      .ok (some [mkUnknown "y"], ⟨[(("an", "x"), [mkUnknown "y"])], 5, 7⟩) ∧
    getMorphemes 1 "an" stubAnalyzer none ⟨[], 99, 0⟩ none "x" =
      .ok (some [mkUnknown "x"], ⟨[(("an", "x"), [mkUnknown "x"])], 100, 1⟩) ∧
    lookupCache (cacheStore ⟨[], 99, 0⟩ ("an", "x") [mkUnknown "x"]).cache ("an", "x") =
      some [mkUnknown "x"] := by
  refine ⟨?_, ?_, ?_⟩
  · exact (getMorphemes_cache_spec 0 "an" stubAnalyzer none
      ⟨[(("an", "x"), [mkUnknown "y"])], 5, 7⟩ "x").1 (some []) [mkUnknown "y"] rfl
  · exact (getMorphemes_cache_spec 0 "an" stubAnalyzer none ⟨[], 99, 0⟩ "x").2.1 rfl
  · exact ((getMorphemes_cache_spec 0 "an" stubAnalyzer none ⟨[], 99, 0⟩ "x").2.2
      ("an", "x") [mkUnknown "x"]).1

theorem addMLStep_some {σ : ObjStore} {d : MorphDb} {ml : Morpheme × Nat} {sid : Nat}
    (h : lookupM d.db ml.1 = some sid) :
    addMLStep (σ, d) ml = (σ.setAdd sid ml.2, d) := by
  simp [addMLStep, h]

theorem addMLStep_none {σ : ObjStore} {d : MorphDb} {ml : Morpheme × Nat}
    (h : lookupM d.db ml.1 = none) :
    addMLStep (σ, d) ml =
      (⟨σ.locObjs, σ.sets ++ [[ml.2]]⟩, ⟨d.db ++ [(ml.1, σ.sets.length)]⟩) := by
  simp [addMLStep, h, ObjStore.allocSet]

/- Morpheme identity (C5). -/

/-- C5: two Morphemes agreeing on (base, pos, subPos, read) but with different
    inflected fields are equal under Morpheme.__eq__ and hash identically, and
    addMLs of both, with two distinct location objects, into a db that lacks
    the key creates a single entry (keyed by the first-inserted object) whose
    set holds both locations. -/
theorem morpheme_identity_ignores_inflected
    (base i1 i2 pos subPos read : String) (σ : ObjStore) (d : MorphDb) (l1 l2 : Nat)
    (hnew : lookupM d.db ⟨base, i1, pos, subPos, read⟩ = none) (hne : l1 ≠ l2) :
    morphEq ⟨base, i1, pos, subPos, read⟩ ⟨base, i2, pos, subPos, read⟩ = true ∧
    morphHash (⟨base, i1, pos, subPos, read⟩ : Morpheme) =
      morphHash ⟨base, i2, pos, subPos, read⟩ ∧
    (MorphDb.addMLs σ d
        [(⟨base, i1, pos, subPos, read⟩, l1), (⟨base, i2, pos, subPos, read⟩, l2)]).2.db =
      d.db ++ [(⟨base, i1, pos, subPos, read⟩, σ.sets.length)] ∧
    (MorphDb.addMLs σ d
        [(⟨base, i1, pos, subPos, read⟩, l1),
          (⟨base, i2, pos, subPos, read⟩, l2)]).1.setsGet σ.sets.length = [l1, l2] := by
  set m1 : Morpheme := ⟨base, i1, pos, subPos, read⟩ with hm1
  set m2 : Morpheme := ⟨base, i2, pos, subPos, read⟩ with hm2
  have hk : mkey m2 = mkey m1 := rfl
  have heq : morphEq m1 m2 = true := (morphEq_iff m1 m2).2 rfl
  have h2 : lookupM d.db m2 = none := (lookupM_congr hk d.db).trans hnew
  have hlook2 : lookupM (d.db ++ [(m1, σ.sets.length)]) m2 = some σ.sets.length := by
    rw [lookupM_append_of_none h2, lookupM, heq]
    simp
  have hall : MorphDb.addMLs σ d [(m1, l1), (m2, l2)] =
      (ObjStore.setAdd ⟨σ.locObjs, σ.sets ++ [[l1]]⟩ σ.sets.length l2,
        ⟨d.db ++ [(m1, σ.sets.length)]⟩) := by
    rw [MorphDb.addMLs, List.foldl_cons, addMLStep_none hnew, List.foldl_cons,
      addMLStep_some hlook2, List.foldl_nil]
  refine ⟨heq, rfl, ?_, ?_⟩
  · rw [hall]
  · rw [hall]
    show ((σ.sets ++ [[l1]]).set σ.sets.length _).getD σ.sets.length [] = [l1, l2]
    have ha : ObjStore.setsGet ⟨σ.locObjs, σ.sets ++ [[l1]]⟩ σ.sets.length = [l1] :=
      getD_append_len [] [l1] σ.sets
    rw [ha]
    have hmem : l2 ∉ ([l1] : List Nat) := by simpa using fun h => hne h.symm
    rw [if_neg hmem]
    exact getD_set_self ([l1] ++ [l2]) [] (σ.sets ++ [[l1]]) σ.sets.length (by simp)

/-- Witness for C5 at concrete inputs. -/
theorem morpheme_identity_witness :
    morphEq ⟨"walk", "walked", "v", "s", "w"⟩ ⟨"walk", "walking", "v", "s", "w"⟩ = true ∧
    (MorphDb.addMLs ⟨[], []⟩ ⟨[]⟩
        [(⟨"walk", "walked", "v", "s", "w"⟩, 0),
          (⟨"walk", "walking", "v", "s", "w"⟩, 1)]).2.db =
      [(⟨"walk", "walked", "v", "s", "w"⟩, 0)] ∧
    (MorphDb.addMLs ⟨[], []⟩ ⟨[]⟩
        [(⟨"walk", "walked", "v", "s", "w"⟩, 0),
          (⟨"walk", "walking", "v", "s", "w"⟩, 1)]).1.setsGet 0 = [0, 1] := by
  obtain ⟨h1, _, h3, h4⟩ := morpheme_identity_ignores_inflected
    "walk" "walked" "walking" "v" "s" "w" ⟨[], []⟩ ⟨[]⟩ 0 1 rfl (by decide)
  exact ⟨h1, by simpa using h3, by simpa using h4⟩

/- Maturity analytics (C6). -/

/-- C6: for a morpheme whose locations carry maturities 3 and 4, maturity(m)
    is the Euclidean norm 5 — not the sum 7 and not the max 4. -/
theorem maturity_euclidean (σ : ObjStore) (d : MorphDb) (m : Morpheme) (sid : Nat)
    (h : lookupM d.db m = some sid)
    (hmat : (σ.setsGet sid).map (fun lid => (σ.locGet lid).maturity) = [3, 4]) :
    MorphDb.maturity σ d m = .ok 5 ∧
    (((σ.setsGet sid).map fun lid => ((σ.locGet lid).maturity : ℝ)).sum = 7 ∧ (5 : ℝ) ≠ 7) ∧
    (pyMaxOrZero ((σ.setsGet sid).map fun lid => (σ.locGet lid).maturity) = 4 ∧ (5 : ℝ) ≠ 4) := by
  have hsq : ((σ.setsGet sid).map fun lid => ((σ.locGet lid).maturity : ℝ) ^ 2) = [9, 16] := by
    have h2 := congrArg (List.map fun z : Int => (z : ℝ) ^ 2) hmat
    rw [List.map_map] at h2
    convert h2 using 2
    norm_num
  have hcast : ((σ.setsGet sid).map fun lid => ((σ.locGet lid).maturity : ℝ)) = [3, 4] := by
    have h2 := congrArg (List.map fun z : Int => (z : ℝ)) hmat
    rw [List.map_map] at h2
    convert h2 using 2
  have hval : Real.sqrt (((σ.setsGet sid).map fun lid => ((σ.locGet lid).maturity : ℝ) ^ 2).sum)
      = 5 := by
    rw [hsq]
    have hs : ([9, 16] : List ℝ).sum = 25 := by norm_num [List.sum_cons, List.sum_nil]
    rw [hs, show (25 : ℝ) = 5 ^ 2 by norm_num, Real.sqrt_sq (by norm_num)]
  refine ⟨?_, ⟨?_, by norm_num⟩, ⟨?_, by norm_num⟩⟩
  · rw [MorphDb.maturity, h]
    exact congrArg Except.ok hval
  · rw [hcast]; norm_num [List.sum_cons, List.sum_nil]
  · rw [hmat]; rfl

/-- Witness for C6: a concrete db whose single morpheme sits at two text-file
    locations of maturities 3 and 4 has maturity exactly 5. -/
theorem maturity_euclidean_witness :
    MorphDb.maturity ⟨[TextFile "f" 1 3, TextFile "f" 2 4], [[0, 1]]⟩ ⟨[(mkUnknown "x", 0)]⟩
      (mkUnknown "x") = .ok 5 :=
  (maturity_euclidean ⟨[TextFile "f" 1 3, TextFile "f" 2 4], [[0, 1]]⟩ ⟨[(mkUnknown "x", 0)]⟩
    (mkUnknown "x") 0 rfl rfl).1

/- Merge machinery (C2, C4, C10). -/

/-- Location ids recorded under key m in a raw db list. -/
def locsInL (σ : ObjStore) (l : List (Morpheme × Nat)) (m : Morpheme) : List Nat :=
  match lookupM l m with
  | some sid => σ.setsGet sid
  | none => []

theorem locsIn_eq_locsInL (σ : ObjStore) (d : MorphDb) (m : Morpheme) :
    MorphDb.locsIn σ d m = locsInL σ d.db m := rfl

theorem locsInL_eq_of_some {σ : ObjStore} {l : List (Morpheme × Nat)} {m : Morpheme}
    {sid : Nat} (h : lookupM l m = some sid) : locsInL σ l m = σ.setsGet sid := by
  rw [locsInL, h]

theorem locsInL_eq_of_none {σ : ObjStore} {l : List (Morpheme × Nat)} {m : Morpheme}
    (h : lookupM l m = none) : locsInL σ l m = [] := by
  rw [locsInL, h]

/-- The keys of a db list are pairwise distinct under Morpheme.__eq__, the
    invariant a Python dict keyed by Morpheme maintains. -/
def KeysDistinct (l : List (Morpheme × Nat)) : Prop :=
  (l.map fun e => mkey e.1).Nodup

/-- Specification of merge's return value: for each entry of the other db, how
    many of its location objects self's set for that key did not yet hold. -/
def addedSpec (σ : ObjStore) (a : MorphDb) (l : List (Morpheme × Nat)) : Nat :=
  (l.map fun e =>
    ((σ.setsGet e.2).filter fun lid => decide (lid ∉ MorphDb.locsIn σ a e.1)).length).sum

/-- Well-formedness of a pair of dbs being merged: dict keys distinct, each
    db's set-object ids distinct and valid, no set object shared between the
    two dbs, and every set duplicate-free. -/
def MergeOK (σ : ObjStore) (a b : MorphDb) : Prop :=
  KeysDistinct a.db ∧ KeysDistinct b.db ∧
  (a.db.map Prod.snd).Nodup ∧ (b.db.map Prod.snd).Nodup ∧
  (∀ s ∈ a.db.map Prod.snd, s < σ.sets.length) ∧
  (∀ s ∈ b.db.map Prod.snd, s < σ.sets.length) ∧
  (∀ s ∈ b.db.map Prod.snd, s ∉ a.db.map Prod.snd) ∧
  (∀ t ∈ σ.sets, t.Nodup)

theorem keysDistinct_cons {e : Morpheme × Nat} {l : List (Morpheme × Nat)}
    (h : KeysDistinct (e :: l)) :
    (∀ q ∈ l, mkey q.1 ≠ mkey e.1) ∧ KeysDistinct l := by
  rw [KeysDistinct, List.map_cons, List.nodup_cons] at h
  refine ⟨fun q hq hk => h.1 ?_, h.2⟩
  exact List.mem_map.2 ⟨q, hq, hk⟩

theorem keysDistinct_snoc {l : List (Morpheme × Nat)} {m0 : Morpheme} {s0 : Nat}
    (h1 : KeysDistinct l) (h2 : ∀ q ∈ l, mkey q.1 ≠ mkey m0) :
    KeysDistinct (l ++ [(m0, s0)]) := by
  rw [KeysDistinct, List.map_append]
  refine List.Nodup.append h1 (List.nodup_singleton _) ?_
  intro y hy hz
  simp only [List.map_cons, List.map_nil, List.mem_singleton] at hz
  obtain ⟨q, hq, hqy⟩ := List.mem_map.1 hy
  exact h2 q hq (hqy.trans hz)

theorem nodup_snoc {l : List Nat} {x : Nat} (h1 : l.Nodup) (h2 : x ∉ l) :
    (l ++ [x]).Nodup := by
  refine List.Nodup.append h1 (List.nodup_singleton _) ?_
  intro y hy hz
  simp only [List.mem_singleton] at hz
  exact h2 (hz ▸ hy)

theorem lookupM_ne_sid {a : List (Morpheme × Nat)} (hks : KeysDistinct a)
    (hsd : (a.map Prod.snd).Nodup) {m m0 : Morpheme} {s s0 : Nat}
    (hm : lookupM a m = some s) (hm0 : lookupM a m0 = some s0)
    (hne : mkey m ≠ mkey m0) : s ≠ s0 := by
  obtain ⟨m', hmem', hk'⟩ := lookupM_mem_of_some hm
  obtain ⟨m0', hmem0', hk0'⟩ := lookupM_mem_of_some hm0
  intro hss
  subst hss
  have : (m', s) = (m0', s) :=
    List.inj_on_of_nodup_map hsd hmem' hmem0' rfl
  have hm' : m' = m0' := congrArg Prod.fst this
  exact hne (hk'.symm.trans (hm' ▸ hk0'))

theorem mem_union_filter (cur blocs : List Nat) (lid : Nat) :
    lid ∈ cur ++ blocs.filter (fun x => decide (x ∉ cur)) ↔ lid ∈ cur ∨ lid ∈ blocs := by
  simp only [List.mem_append, List.mem_filter, decide_eq_true_eq]
  constructor
  · rintro (h | ⟨h, _⟩)
    · exact Or.inl h
    · exact Or.inr h
  · rintro (h | h)
    · exact Or.inl h
    · by_cases hc : lid ∈ cur
      · exact Or.inl hc
      · exact Or.inr ⟨h, hc⟩

theorem nodup_union_filter {cur blocs : List Nat} (h1 : cur.Nodup) (h2 : blocs.Nodup) :
    (cur ++ blocs.filter fun x => decide (x ∉ cur)).Nodup := by
  refine List.Nodup.append h1 (h2.filter _) ?_
  intro y hy hz
  rw [List.mem_filter, decide_eq_true_eq] at hz
  exact hz.2 hy

theorem mergeStep_some {σ : ObjStore} {a : MorphDb} {n0 : Nat} {e : Morpheme × Nat}
    {asid : Nat} (hma : lookupM a.db e.1 = some asid) :
    mergeStep (σ, a, n0) e =
      (⟨σ.locObjs, σ.sets.set asid
          (σ.setsGet asid ++ (σ.setsGet e.2).filter fun lid => decide (lid ∉ σ.setsGet asid))⟩,
        a, n0 + ((σ.setsGet e.2).filter fun lid => decide (lid ∉ σ.setsGet asid)).length) := by
  simp [mergeStep, hma]

theorem mergeStep_none {σ : ObjStore} {a : MorphDb} {n0 : Nat} {e : Morpheme × Nat}
    (hma : lookupM a.db e.1 = none) :
    mergeStep (σ, a, n0) e = (σ, ⟨a.db ++ [e]⟩, n0 + (σ.setsGet e.2).length) := by
  simp [mergeStep, hma]

theorem addedSpec_cons (σ : ObjStore) (a : MorphDb) (e : Morpheme × Nat)
    (l : List (Morpheme × Nat)) :
    addedSpec σ a (e :: l) =
      ((σ.setsGet e.2).filter fun lid => decide (lid ∉ MorphDb.locsIn σ a e.1)).length +
        addedSpec σ a l := by
  simp [addedSpec]

theorem addedSpec_congr {σ1 σ2 : ObjStore} {a1 a2 : MorphDb} {l : List (Morpheme × Nat)}
    (h : ∀ e ∈ l, σ1.setsGet e.2 = σ2.setsGet e.2 ∧
      MorphDb.locsIn σ1 a1 e.1 = MorphDb.locsIn σ2 a2 e.1) :
    addedSpec σ1 a1 l = addedSpec σ2 a2 l := by
  rw [addedSpec, addedSpec]
  congr 1
  refine List.map_congr_left fun e he => ?_
  obtain ⟨h1, h2⟩ := h e he
  rw [h1, h2]

theorem merge_core (l : List (Morpheme × Nat)) :
    ∀ (σ : ObjStore) (a : MorphDb) (n0 : Nat),
      KeysDistinct l → (l.map Prod.snd).Nodup →
      KeysDistinct a.db → (a.db.map Prod.snd).Nodup →
      (∀ s ∈ a.db.map Prod.snd, s < σ.sets.length) →
      (∀ s ∈ l.map Prod.snd, s < σ.sets.length) →
      (∀ s ∈ l.map Prod.snd, s ∉ a.db.map Prod.snd) →
      (∀ t ∈ σ.sets, t.Nodup) →
      (∃ ext, (l.foldl mergeStep (σ, a, n0)).2.1.db = a.db ++ ext) ∧
      ((l.foldl mergeStep (σ, a, n0)).1.locObjs = σ.locObjs ∧
        (l.foldl mergeStep (σ, a, n0)).1.sets.length = σ.sets.length) ∧
      (∀ p ∈ a.db, (∀ q ∈ l, mkey q.1 ≠ mkey p.1) →
        (l.foldl mergeStep (σ, a, n0)).1.setsGet p.2 = σ.setsGet p.2) ∧
      (∀ sid, (l.foldl mergeStep (σ, a, n0)).1.setsGet sid = σ.setsGet sid ∨
        sid ∈ a.db.map Prod.snd) ∧
      (∀ m lid, lid ∈ MorphDb.locsIn (l.foldl mergeStep (σ, a, n0)).1
          (l.foldl mergeStep (σ, a, n0)).2.1 m ↔
        (lid ∈ MorphDb.locsIn σ a m ∨ lid ∈ locsInL σ l m)) ∧
      (l.foldl mergeStep (σ, a, n0)).2.2 = n0 + addedSpec σ a l ∧
      (∀ m sid, lookupM a.db m = none → lookupM l m = some sid →
        lookupM (l.foldl mergeStep (σ, a, n0)).2.1.db m = some sid) := by
  induction l with
  | nil =>
    intro σ a n0 _ _ _ _ _ _ _ _
    refine ⟨⟨[], by simp⟩, ⟨rfl, rfl⟩, fun p _ _ => rfl, fun sid => Or.inl rfl,
      fun m lid => ?_, by simp [addedSpec], fun m sid _ h2 => ?_⟩
    · have h0 : lookupM ([] : List (Morpheme × Nat)) m = none := rfl
      rw [locsInL_eq_of_none h0]
      simp
    · simp [lookupM] at h2
  | cons e l' ih =>
    intro σ a n0 hkl hsl hka hsa hva hvl hdisj hndp
    obtain ⟨hkey_head, hkl'⟩ := keysDistinct_cons hkl
    rw [List.map_cons, List.nodup_cons] at hsl
    obtain ⟨hs0_notin, hsl'⟩ := hsl
    have hvl' : ∀ s ∈ l'.map Prod.snd, s < σ.sets.length := fun s hs => hvl s (by simp [hs])
    have hdisj' : ∀ s ∈ l'.map Prod.snd, s ∉ a.db.map Prod.snd := fun s hs => hdisj s (by simp [hs])
    have hvs0 : e.2 < σ.sets.length := hvl e.2 (by simp)
    have hds0 : e.2 ∉ a.db.map Prod.snd := hdisj e.2 (by simp)
    rw [List.foldl_cons]
    cases hma : lookupM a.db e.1 with
    | some asid =>
      rw [mergeStep_some hma]
      have hasid_mem : asid ∈ a.db.map Prod.snd := lookupM_snd_mem hma
      have hasid_lt : asid < σ.sets.length := hva asid hasid_mem
      set cur := σ.setsGet asid with hcur
      set blocs := σ.setsGet e.2 with hblocs
      set fresh := blocs.filter (fun lid => decide (lid ∉ cur)) with hfresh
      set σ1 : ObjStore := ⟨σ.locObjs, σ.sets.set asid (cur ++ fresh)⟩ with hσ1
      have hlen1 : σ1.sets.length = σ.sets.length := List.length_set σ.sets asid _
      have hget1_eq : σ1.setsGet asid = cur ++ fresh :=
        getD_set_self (cur ++ fresh) [] σ.sets asid hasid_lt
      have hget1_ne : ∀ sid, sid ≠ asid → σ1.setsGet sid = σ.setsGet sid :=
        fun sid h => getD_set_ne (cur ++ fresh) [] σ.sets asid sid (fun hh => h hh.symm)
      have hcur_nodup : cur.Nodup := hndp _ (getD_mem [] σ.sets asid hasid_lt)
      have hblocs_nodup : blocs.Nodup := hndp _ (getD_mem [] σ.sets e.2 hvs0)
      have hndp1 : ∀ t ∈ σ1.sets, t.Nodup := by
        intro t ht
        rcases List.mem_or_eq_of_mem_set ht with h | h
        · exact hndp t h
        · exact h ▸ nodup_union_filter hcur_nodup hblocs_nodup
      obtain ⟨⟨ext, hext⟩, ⟨hlocObjs, hslen⟩, hC, hD, hE, hF, hG⟩ :=
        ih σ1 a (n0 + fresh.length) hkl' hsl' hka hsa
          (fun s hs => hlen1 ▸ hva s hs) (fun s hs => hlen1 ▸ hvl' s hs) hdisj' hndp1
      have ha_same : ∀ m : Morpheme, mkey m ≠ mkey e.1 →
          MorphDb.locsIn σ1 a m = MorphDb.locsIn σ a m := by
        intro m hkm
        cases hlam : lookupM a.db m with
        | none =>
          rw [locsIn_eq_locsInL, locsInL_eq_of_none hlam,
            locsIn_eq_locsInL, locsInL_eq_of_none hlam]
        | some s =>
          have hsne : s ≠ asid := lookupM_ne_sid hka hsa hlam hma hkm
          rw [locsIn_eq_locsInL, locsInL_eq_of_some hlam,
            locsIn_eq_locsInL, locsInL_eq_of_some hlam]
          exact hget1_ne s hsne
      have hl_same : ∀ m : Morpheme, locsInL σ1 l' m = locsInL σ l' m := by
        intro m
        cases hll : lookupM l' m with
        | none => rw [locsInL_eq_of_none hll, locsInL_eq_of_none hll]
        | some s =>
          have hmem := lookupM_snd_mem hll
          have hnot : s ∉ a.db.map Prod.snd := hdisj' s hmem
          have hsne : s ≠ asid := fun h => hnot (h ▸ hasid_mem)
          rw [locsInL_eq_of_some hll, locsInL_eq_of_some hll]
          exact hget1_ne s hsne
      refine ⟨⟨ext, hext⟩, ⟨hlocObjs, hslen.trans hlen1⟩, ?_, ?_, ?_, ?_, ?_⟩
      · -- frame by untouched key
        intro p hp hq
        have hq' : ∀ q ∈ l', mkey q.1 ≠ mkey p.1 := fun q hqm => hq q (List.mem_cons_of_mem e hqm)
        have hpq_e : mkey e.1 ≠ mkey p.1 := hq e (List.mem_cons_self e l')
        obtain ⟨ea, hea_mem, hea_key⟩ := lookupM_mem_of_some hma
        have hne : p.2 ≠ asid := by
          intro h
          have hpe : p = (ea, asid) :=
            List.inj_on_of_nodup_map hsa hp hea_mem (by rw [h])
          exact hpq_e (by rw [congrArg Prod.fst hpe]; exact hea_key.symm)
        rw [hC p hp hq']
        exact hget1_ne p.2 hne
      · -- only original self sets are mutated
        intro sid
        rcases hD sid with h | h
        · by_cases hkk : sid = asid
          · exact Or.inr (hkk ▸ hasid_mem)
          · exact Or.inl (h.trans (hget1_ne sid hkk))
        · exact Or.inr h
      · -- membership
        intro m lid
        rw [hE m lid]
        by_cases hkm : mkey m = mkey e.1
        · have hlam : lookupM a.db m = some asid := (lookupM_congr hkm a.db).trans hma
          have h1 : MorphDb.locsIn σ1 a m = cur ++ fresh := by
            rw [locsIn_eq_locsInL, locsInL_eq_of_some hlam]
            exact hget1_eq
          have h2 : lookupM l' m = none :=
            (lookupM_eq_none_iff m l').2 fun q hq hkq => hkey_head q hq (hkq.trans hkm)
          have h4 : MorphDb.locsIn σ a m = cur := by
            rw [locsIn_eq_locsInL, locsInL_eq_of_some hlam]
          have h5 : lookupM (e :: l') m = some e.2 := by
            rw [lookupM, if_pos ((morphEq_iff e.1 m).2 hkm.symm)]
          have h6 : locsInL σ (e :: l') m = blocs := locsInL_eq_of_some h5
          rw [h1, locsInL_eq_of_none h2, h4, h6]
          simp only [List.not_mem_nil, or_false]
          exact mem_union_filter cur blocs lid
        · have hmeq : morphEq e.1 m ≠ true := fun h => hkm ((morphEq_iff e.1 m).1 h).symm
          have hlcons : locsInL σ (e :: l') m = locsInL σ l' m := by
            rw [locsInL, lookupM, if_neg hmeq]
            rfl
          rw [ha_same m hkm, hl_same m, hlcons]
      · -- count
        have haspec : addedSpec σ1 a l' = addedSpec σ a l' := by
          refine addedSpec_congr fun e' he' => ⟨?_, ?_⟩
          · have hmem : e'.2 ∈ l'.map Prod.snd := List.mem_map.2 ⟨e', he', rfl⟩
            have hnot : e'.2 ∉ a.db.map Prod.snd := hdisj' e'.2 hmem
            exact hget1_ne e'.2 fun h => hnot (h ▸ hasid_mem)
          · exact ha_same e'.1 (hkey_head e' he')
        have hterm : ((σ.setsGet e.2).filter
            fun lid => decide (lid ∉ MorphDb.locsIn σ a e.1)).length = fresh.length := by
          have h4 : MorphDb.locsIn σ a e.1 = cur := by
            rw [locsIn_eq_locsInL, locsInL_eq_of_some hma]
          rw [h4]
        rw [hF, haspec, addedSpec_cons, hterm]
        omega
      · -- aliasing of new keys
        intro m sid hnone hsome
        by_cases hkm : mkey m = mkey e.1
        · exact absurd ((lookupM_congr hkm a.db).trans hma) (by rw [hnone]; simp)
        · have hmeq : morphEq e.1 m ≠ true := fun h => hkm ((morphEq_iff e.1 m).1 h).symm
          rw [lookupM, if_neg hmeq] at hsome
          exact hG m sid hnone hsome
    | none =>
      rw [mergeStep_none hma]
      set blocs := σ.setsGet e.2 with hblocs
      set a2 : MorphDb := ⟨a.db ++ [e]⟩ with ha2
      have hnokey : ∀ q ∈ a.db, mkey q.1 ≠ mkey e.1 := (lookupM_eq_none_iff e.1 a.db).1 hma
      have hkeysa2 : KeysDistinct a2.db := keysDistinct_snoc hka hnokey
      have hsnd_a2 : a2.db.map Prod.snd = a.db.map Prod.snd ++ [e.2] := by simp [ha2]
      have hsa2 : (a2.db.map Prod.snd).Nodup := by
        rw [hsnd_a2]; exact nodup_snoc hsa hds0
      have hva2 : ∀ s ∈ a2.db.map Prod.snd, s < σ.sets.length := by
        rw [hsnd_a2]
        intro s hs
        rcases List.mem_append.1 hs with h | h
        · exact hva s h
        · rwa [List.mem_singleton.1 h]
      have hdisj2 : ∀ s ∈ l'.map Prod.snd, s ∉ a2.db.map Prod.snd := by
        intro s hs
        rw [hsnd_a2]
        intro hmem
        rcases List.mem_append.1 hmem with h | h
        · exact hdisj' s hs h
        · exact hs0_notin (List.mem_singleton.1 h ▸ hs)
      have hla2 : ∀ m : Morpheme, mkey m = mkey e.1 → lookupM a2.db m = some e.2 := by
        intro m hkm
        have hlam : lookupM a.db m = none := (lookupM_congr hkm a.db).trans hma
        rw [ha2, lookupM_append_of_none hlam, lookupM,
          if_pos ((morphEq_iff e.1 m).2 hkm.symm)]
      have hla2_ne : ∀ m : Morpheme, mkey m ≠ mkey e.1 → lookupM a2.db m = lookupM a.db m := by
        intro m hkm
        have hmeq : morphEq e.1 m ≠ true := fun h => hkm ((morphEq_iff e.1 m).1 h).symm
        cases hlam : lookupM a.db m with
        | none =>
          rw [ha2, lookupM_append_of_none hlam, lookupM, if_neg hmeq]
          rfl
        | some s => exact lookupM_append_of_some hlam [e]
      obtain ⟨⟨ext, hext⟩, ⟨hlocObjs, hslen⟩, hC, hD, hE, hF, hG⟩ :=
        ih σ a2 (n0 + blocs.length) hkl' hsl' hkeysa2 hsa2 hva2 hvl' hdisj2 hndp
      refine ⟨⟨[e] ++ ext, by rw [hext, ha2, List.append_assoc]⟩, ⟨hlocObjs, hslen⟩,
        ?_, ?_, ?_, ?_, ?_⟩
      · -- frame by untouched key
        intro p hp hq
        have hq' : ∀ q ∈ l', mkey q.1 ≠ mkey p.1 := fun q hqm => hq q (List.mem_cons_of_mem e hqm)
        exact hC p (by rw [ha2]; exact List.mem_append_left [e] hp) hq'
      · -- only original self sets are mutated
        intro sid
        rcases hD sid with h | h
        · exact Or.inl h
        · rw [hsnd_a2] at h
          rcases List.mem_append.1 h with h | h
          · exact Or.inr h
          · have he_mem : e ∈ a2.db := by
              rw [ha2]; exact List.mem_append_right a.db (List.mem_singleton_self e)
            have := hC e he_mem hkey_head
            rw [List.mem_singleton.1 h]
            exact Or.inl this
      · -- membership
        intro m lid
        rw [hE m lid]
        by_cases hkm : mkey m = mkey e.1
        · have hlam : lookupM a.db m = none := (lookupM_congr hkm a.db).trans hma
          have h2 : lookupM l' m = none :=
            (lookupM_eq_none_iff m l').2 fun q hq hkq => hkey_head q hq (hkq.trans hkm)
          have h5 : lookupM (e :: l') m = some e.2 := by
            rw [lookupM, if_pos ((morphEq_iff e.1 m).2 hkm.symm)]
          rw [locsIn_eq_locsInL, locsInL_eq_of_some (hla2 m hkm), locsInL_eq_of_none h2,
            locsIn_eq_locsInL, locsInL_eq_of_none hlam, locsInL_eq_of_some h5]
          simp [hblocs]
        · have hmeq : morphEq e.1 m ≠ true := fun h => hkm ((morphEq_iff e.1 m).1 h).symm
          have hlcons : locsInL σ (e :: l') m = locsInL σ l' m := by
            rw [locsInL, lookupM, if_neg hmeq]
            rfl
          have ha_same : MorphDb.locsIn σ a2 m = MorphDb.locsIn σ a m := by
            rw [locsIn_eq_locsInL, locsIn_eq_locsInL, locsInL, hla2_ne m hkm]
            rfl
          rw [ha_same, hlcons]
      · -- count
        have haspec : addedSpec σ a2 l' = addedSpec σ a l' := by
          refine addedSpec_congr fun e' he' => ⟨rfl, ?_⟩
          have ha_same : MorphDb.locsIn σ a2 e'.1 = MorphDb.locsIn σ a e'.1 := by
            rw [locsIn_eq_locsInL, locsIn_eq_locsInL, locsInL, hla2_ne e'.1 (hkey_head e' he')]
            rfl
          exact ha_same
        have hterm : ((σ.setsGet e.2).filter
            fun lid => decide (lid ∉ MorphDb.locsIn σ a e.1)).length = blocs.length := by
          have h4 : MorphDb.locsIn σ a e.1 = [] := by
            rw [locsIn_eq_locsInL, locsInL_eq_of_none hma]
          rw [h4]
          simp
        rw [hF, haspec, addedSpec_cons, hterm]
        omega
      · -- aliasing of new keys
        intro m sid hnone hsome
        by_cases hkm : mkey m = mkey e.1
        · have hsid : sid = e.2 := by
            rw [lookupM, if_pos ((morphEq_iff e.1 m).2 hkm.symm)] at hsome
            exact (Option.some.injEq _ _ ▸ hsome).symm
          rw [hext]
          rw [hsid]
          exact lookupM_append_of_some (hla2 m hkm) ext
        · have hmeq : morphEq e.1 m ≠ true := fun h => hkm ((morphEq_iff e.1 m).1 h).symm
          rw [lookupM, if_neg hmeq] at hsome
          exact hG m sid (by rw [hla2_ne m hkm]; exact hnone) hsome

/-- C2 counterexample fixture and statement.  Two structurally identical
    one-morpheme databases whose TextFile location objects are distinct. -/
theorem merge_identical_copy_not_zero :
    MorphDb.dbView ⟨[TextFile "f" 1 0, TextFile "f" 1 0], [[0], [1]]⟩
        ⟨[(mkUnknown "dog", 0)]⟩ =
      MorphDb.dbView ⟨[TextFile "f" 1 0, TextFile "f" 1 0], [[0], [1]]⟩
        ⟨[(mkUnknown "dog", 1)]⟩ ∧
    (MorphDb.merge ⟨[TextFile "f" 1 0, TextFile "f" 1 0], [[0], [1]]⟩
        ⟨[(mkUnknown "dog", 0)]⟩ ⟨[(mkUnknown "dog", 1)]⟩).2.2 = 1 :=
  ⟨rfl, rfl⟩

/-- C2 (amended): merge unions, by object identity, each of other's location
    sets into self's, leaves other's sets untouched, and returns the number of
    (morpheme, location-object) pairs of other not already present in self by
    identity; merging a copy of a database whose sets hold the same location
    objects therefore returns 0. -/
theorem merge_spec (σ : ObjStore) (a b : MorphDb) (h : MergeOK σ a b) :
    (∀ m lid, lid ∈ MorphDb.locsIn (MorphDb.merge σ a b).1 (MorphDb.merge σ a b).2.1 m ↔
      (lid ∈ MorphDb.locsIn σ a m ∨ lid ∈ MorphDb.locsIn σ b m)) ∧
    (∀ m, MorphDb.locsIn (MorphDb.merge σ a b).1 b m = MorphDb.locsIn σ b m) ∧
    (MorphDb.merge σ a b).2.2 = addedSpec σ a b.db ∧
    ((∀ p ∈ b.db, ∀ lid ∈ σ.setsGet p.2, lid ∈ MorphDb.locsIn σ a p.1) →
      (MorphDb.merge σ a b).2.2 = 0) := by
  obtain ⟨hka, hkb, hsa, hsb, hva, hvb, hdisj, hndp⟩ := h
  obtain ⟨_, _, _, hD, hE, hF, _⟩ :=
    merge_core b.db σ a 0 hkb hsb hka hsa hva hvb hdisj hndp
  have hcount : (MorphDb.merge σ a b).2.2 = addedSpec σ a b.db := by
    rw [MorphDb.merge, hF, Nat.zero_add]
  refine ⟨fun m lid => hE m lid, ?_, hcount, ?_⟩
  · intro m
    cases hmb : lookupM b.db m with
    | none =>
      rw [locsIn_eq_locsInL, locsInL_eq_of_none hmb, locsIn_eq_locsInL,
        locsInL_eq_of_none hmb]
    | some s =>
      have hnot : s ∉ a.db.map Prod.snd := hdisj s (lookupM_snd_mem hmb)
      rcases hD s with h | h
      · rw [locsIn_eq_locsInL, locsInL_eq_of_some hmb, locsIn_eq_locsInL,
          locsInL_eq_of_some hmb]
        exact h
      · exact absurd h hnot
  · intro hsub
    rw [hcount, addedSpec]
    refine List.sum_eq_zero fun x hx => ?_
    obtain ⟨e, he, hxe⟩ := List.mem_map.1 hx
    have : ((σ.setsGet e.2).filter fun lid => decide (lid ∉ MorphDb.locsIn σ a e.1)) = [] := by
      rw [List.filter_eq_nil_iff]
      intro lid hlid
      simp only [decide_eq_true_eq, not_not]
      exact hsub e he lid hlid
    rw [← hxe, this]
    rfl

/-- Witness for C2's amended theorem: merging a database into a copy whose set
    objects hold the very same location objects returns 0. -/
theorem merge_spec_witness :
    MergeOK ⟨[TextFile "f" 1 0], [[0], [0]]⟩ ⟨[(mkUnknown "dog", 0)]⟩
        ⟨[(mkUnknown "dog", 1)]⟩ ∧
    (MorphDb.merge ⟨[TextFile "f" 1 0], [[0], [0]]⟩ ⟨[(mkUnknown "dog", 0)]⟩
        ⟨[(mkUnknown "dog", 1)]⟩).2.2 = 0 := by
  have hok : MergeOK ⟨[TextFile "f" 1 0], [[0], [0]]⟩ ⟨[(mkUnknown "dog", 0)]⟩
      ⟨[(mkUnknown "dog", 1)]⟩ := by
    refine ⟨?_, ?_, by decide, by decide, by decide, by decide, by decide, by decide⟩
    · unfold KeysDistinct
      decide
    · unfold KeysDistinct
      decide
  exact ⟨hok, (merge_spec _ _ _ hok).2.2.2 (by decide)⟩

/-- C4: merging b into a and a into b from the same starting state yield, for
    every morpheme, the same location-object contents — the union of the two
    original location sets — even though the two returned counts may differ. -/
theorem merge_comm_contents (σ : ObjStore) (a b : MorphDb)
    (hab : MergeOK σ a b) (hba : MergeOK σ b a) :
    ∀ m lid,
      lid ∈ MorphDb.locsIn (MorphDb.merge σ a b).1 (MorphDb.merge σ a b).2.1 m ↔
      lid ∈ MorphDb.locsIn (MorphDb.merge σ b a).1 (MorphDb.merge σ b a).2.1 m := by
  intro m lid
  rw [(merge_spec σ a b hab).1 m lid, (merge_spec σ b a hba).1 m lid]
  exact or_comm

/-- Witness for C4 at a concrete pair of one-morpheme databases, including an
    instance where the two addedCounts differ while contents agree. -/
theorem merge_comm_contents_witness :
    (1 ∈ MorphDb.locsIn
        (MorphDb.merge ⟨[TextFile "f" 1 0, TextFile "g" 2 0], [[0], [1]]⟩
          ⟨[(mkUnknown "a", 0)]⟩ ⟨[(mkUnknown "b", 1)]⟩).1
        (MorphDb.merge ⟨[TextFile "f" 1 0, TextFile "g" 2 0], [[0], [1]]⟩
          ⟨[(mkUnknown "a", 0)]⟩ ⟨[(mkUnknown "b", 1)]⟩).2.1 (mkUnknown "b") ↔
      1 ∈ MorphDb.locsIn
        (MorphDb.merge ⟨[TextFile "f" 1 0, TextFile "g" 2 0], [[0], [1]]⟩
          ⟨[(mkUnknown "b", 1)]⟩ ⟨[(mkUnknown "a", 0)]⟩).1
        (MorphDb.merge ⟨[TextFile "f" 1 0, TextFile "g" 2 0], [[0], [1]]⟩
          ⟨[(mkUnknown "b", 1)]⟩ ⟨[(mkUnknown "a", 0)]⟩).2.1 (mkUnknown "b")) := by
  have hab : MergeOK ⟨[TextFile "f" 1 0, TextFile "g" 2 0], [[0], [1]]⟩
      ⟨[(mkUnknown "a", 0)]⟩ ⟨[(mkUnknown "b", 1)]⟩ := by
    refine ⟨?_, ?_, by decide, by decide, by decide, by decide, by decide, by decide⟩
    · unfold KeysDistinct
      decide
    · unfold KeysDistinct
      decide
  have hba : MergeOK ⟨[TextFile "f" 1 0, TextFile "g" 2 0], [[0], [1]]⟩
      ⟨[(mkUnknown "b", 1)]⟩ ⟨[(mkUnknown "a", 0)]⟩ := by
    refine ⟨?_, ?_, by decide, by decide, by decide, by decide, by decide, by decide⟩
    · unfold KeysDistinct
      decide
    · unfold KeysDistinct
      decide
  exact merge_comm_contents _ _ _ hab hba (mkUnknown "b") 1

theorem setAdd_mem (σ : ObjStore) (sid lid : Nat) (h : sid < σ.sets.length) :
    lid ∈ (σ.setAdd sid lid).setsGet sid := by
  show lid ∈ (σ.setAdd sid lid).sets.getD sid []
  rw [ObjStore.setAdd]
  rw [getD_set_self _ _ _ _ h]
  by_cases hmem : lid ∈ σ.setsGet sid
  · rw [if_pos hmem]
    exact hmem
  · rw [if_neg hmem]
    exact List.mem_append_right _ (List.mem_singleton_self lid)

/-- C10: after a.merge(b), a morpheme of b that was new to a is mapped by a to
    the very set object of b (the same id, not a copy); a subsequent
    addMLs(a, (m, lid)) therefore inserts lid into b's contents as well. -/
theorem merge_alias_spec (σ : ObjStore) (a b : MorphDb) (m : Morpheme) (sid lid : Nat)
    (h : MergeOK σ a b) (hma : lookupM a.db m = none) (hmb : lookupM b.db m = some sid) :
    lookupM (MorphDb.merge σ a b).2.1.db m = some sid ∧
    lid ∈ MorphDb.locsIn
      (MorphDb.addMLs (MorphDb.merge σ a b).1 (MorphDb.merge σ a b).2.1 [(m, lid)]).1 b m := by
  obtain ⟨hka, hkb, hsa, hsb, hva, hvb, hdisj, hndp⟩ := h
  obtain ⟨_, ⟨_, hslen⟩, _, _, _, _, hG⟩ :=
    merge_core b.db σ a 0 hkb hsb hka hsa hva hvb hdisj hndp
  have h1 : lookupM (MorphDb.merge σ a b).2.1.db m = some sid := hG m sid hma hmb
  have hvalid : sid < (MorphDb.merge σ a b).1.sets.length := by
    rw [show (MorphDb.merge σ a b).1 = (b.db.foldl mergeStep (σ, a, 0)).1 from rfl, hslen]
    exact hvb sid (lookupM_snd_mem hmb)
  have haddm : MorphDb.addMLs (MorphDb.merge σ a b).1 (MorphDb.merge σ a b).2.1 [(m, lid)] =
      ((MorphDb.merge σ a b).1.setAdd sid lid, (MorphDb.merge σ a b).2.1) := by
    rw [MorphDb.addMLs, List.foldl_cons, addMLStep_some h1, List.foldl_nil]
  refine ⟨h1, ?_⟩
  rw [haddm, locsIn_eq_locsInL, locsInL_eq_of_some hmb]
  exact setAdd_mem _ sid lid hvalid

/-- Witness for C10 at a concrete store. -/
theorem merge_alias_spec_witness :
    lookupM (MorphDb.merge ⟨[TextFile "f" 1 0], [[0]]⟩ ⟨[]⟩
        ⟨[(mkUnknown "x", 0)]⟩).2.1.db (mkUnknown "x") = some 0 ∧
    1 ∈ MorphDb.locsIn
      (MorphDb.addMLs (MorphDb.merge ⟨[TextFile "f" 1 0], [[0]]⟩ ⟨[]⟩
          ⟨[(mkUnknown "x", 0)]⟩).1
        (MorphDb.merge ⟨[TextFile "f" 1 0], [[0]]⟩ ⟨[]⟩
          ⟨[(mkUnknown "x", 0)]⟩).2.1 [(mkUnknown "x", 1)]).1
      ⟨[(mkUnknown "x", 0)]⟩ (mkUnknown "x") := by
  have hok : MergeOK ⟨[TextFile "f" 1 0], [[0]]⟩ ⟨[]⟩ ⟨[(mkUnknown "x", 0)]⟩ := by
    refine ⟨?_, ?_, by decide, by decide, by decide, by decide, by decide, by decide⟩
    · unfold KeysDistinct
      decide
    · unfold KeysDistinct
      decide
  exact merge_alias_spec _ _ _ (mkUnknown "x") 0 1 hok rfl rfl

/- Import machinery (C8). -/

/-- The morpheme m is recorded in d with the location object lid, whose field
    values are L: d maps m to a live set object containing lid. -/
def Recorded (σ : ObjStore) (d : MorphDb) (m : Morpheme) (lid : Nat) (L : Location) : Prop :=
  ∃ sid, lookupM d.db m = some sid ∧ sid < σ.sets.length ∧ lid ∈ σ.setsGet sid ∧
    σ.locObjs[lid]? = some L

/-- Every set id a db refers to is a live set object of the store. -/
def DbWF (σ : ObjStore) (d : MorphDb) : Prop :=
  ∀ p ∈ d.db, p.2 < σ.sets.length

theorem set_oob {α : Type} (v : α) :
    ∀ (l : List α) (i : Nat), l.length ≤ i → l.set i v = l
  | [], _, _ => by simp
  | x :: t, 0, h => by simp at h
  | x :: t, i + 1, h => by
    rw [List.set_cons_succ]
    rw [set_oob v t i (by simpa using h)]

theorem setAdd_superset (σ : ObjStore) (sid lid : Nat) :
    ∀ s : Nat, ∀ x ∈ σ.setsGet s, x ∈ (σ.setAdd sid lid).setsGet s := by
  intro s x hx
  by_cases hv : sid < σ.sets.length
  · by_cases hss : s = sid
    · subst hss
      show x ∈ (σ.sets.set s _).getD s []
      rw [getD_set_self _ _ _ _ hv]
      by_cases hmem : lid ∈ σ.setsGet s
      · rwa [if_pos hmem]
      · rw [if_neg hmem]
        exact List.mem_append_left _ hx
    · show x ∈ (σ.sets.set sid _).getD s []
      rw [getD_set_ne _ [] σ.sets sid s fun hh => hss hh.symm]
      exact hx
  · show x ∈ (σ.sets.set sid _).getD s []
    rw [set_oob _ σ.sets sid (by omega)]
    exact hx

theorem addMLs_core :
    ∀ (mls : List (Morpheme × Nat)) (σ : ObjStore) (d : MorphDb), DbWF σ d →
      (MorphDb.addMLs σ d mls).1.locObjs = σ.locObjs ∧
      σ.sets.length ≤ (MorphDb.addMLs σ d mls).1.sets.length ∧
      DbWF (MorphDb.addMLs σ d mls).1 (MorphDb.addMLs σ d mls).2 ∧
      (∀ m lid L, Recorded σ d m lid L →
        Recorded (MorphDb.addMLs σ d mls).1 (MorphDb.addMLs σ d mls).2 m lid L) ∧
      (∀ p ∈ mls, ∀ L, σ.locObjs[p.2]? = some L →
        Recorded (MorphDb.addMLs σ d mls).1 (MorphDb.addMLs σ d mls).2 p.1 p.2 L)
  | [], σ, d, hwf => by
    refine ⟨rfl, le_refl _, hwf, fun m lid L h => h, fun p hp => absurd hp (List.not_mem_nil p)⟩
  | ml :: rest, σ, d, hwf => by
    rw [MorphDb.addMLs, List.foldl_cons]
    cases hs : lookupM d.db ml.1 with
    | some sid =>
      rw [addMLStep_some hs]
      have hlen1 : (σ.setAdd sid ml.2).sets.length = σ.sets.length :=
        List.length_set σ.sets sid _
      have hwf1 : DbWF (σ.setAdd sid ml.2) d := fun p hp => hlen1 ▸ hwf p hp
      have hvalid : sid < σ.sets.length := by
        obtain ⟨m', hmem, _⟩ := lookupM_mem_of_some hs
        exact hwf (m', sid) hmem
      have hpres : ∀ m lid L, Recorded σ d m lid L → Recorded (σ.setAdd sid ml.2) d m lid L := by
        rintro m lid L ⟨sid', hl, hlt, hmem, hget⟩
        exact ⟨sid', hl, hlen1 ▸ hlt, setAdd_superset σ sid ml.2 sid' lid hmem, hget⟩
      have hnew : ∀ L, σ.locObjs[ml.2]? = some L → Recorded (σ.setAdd sid ml.2) d ml.1 ml.2 L :=
        fun L hget => ⟨sid, hs, hlen1 ▸ hvalid, setAdd_mem σ sid ml.2 hvalid, hget⟩
      obtain ⟨ih1, ih2, ih3, ih4, ih5⟩ := addMLs_core rest (σ.setAdd sid ml.2) d hwf1
      rw [MorphDb.addMLs] at ih1 ih2 ih3 ih4 ih5
      refine ⟨ih1, le_trans (le_of_eq hlen1.symm) ih2, ih3, ?_, ?_⟩
      · intro m lid L h
        exact ih4 m lid L (hpres m lid L h)
      · intro p hp L hget
        rcases List.mem_cons.1 hp with heq | hmem
        · subst heq
          exact ih4 p.1 p.2 L (hnew L hget)
        · exact ih5 p hmem L hget
    | none =>
      rw [addMLStep_none hs]
      have hwf1 : DbWF (⟨σ.locObjs, σ.sets ++ [[ml.2]]⟩ : ObjStore)
          ⟨d.db ++ [(ml.1, σ.sets.length)]⟩ := by
        intro p hp
        rcases List.mem_append.1 hp with h | h
        · have := hwf p h
          simp only [List.length_append, List.length_cons, List.length_nil]
          omega
        · rw [List.mem_singleton.1 h]
          simp
      have hpres : ∀ m lid L, Recorded σ d m lid L →
          Recorded ⟨σ.locObjs, σ.sets ++ [[ml.2]]⟩ ⟨d.db ++ [(ml.1, σ.sets.length)]⟩ m lid L := by
        rintro m lid L ⟨sid', hl, hlt, hmem, hget⟩
        refine ⟨sid', lookupM_append_of_some hl _, by simp; omega, ?_, hget⟩
        show lid ∈ (σ.sets ++ [[ml.2]]).getD sid' []
        rw [getD_append_left [] σ.sets [[ml.2]] sid' hlt]
        exact hmem
      have hnew : ∀ L, σ.locObjs[ml.2]? = some L →
          Recorded ⟨σ.locObjs, σ.sets ++ [[ml.2]]⟩ ⟨d.db ++ [(ml.1, σ.sets.length)]⟩
            ml.1 ml.2 L := by
        intro L hget
        refine ⟨σ.sets.length, ?_, by simp, ?_, hget⟩
        · rw [show (⟨d.db ++ [(ml.1, σ.sets.length)]⟩ : MorphDb).db =
            d.db ++ [(ml.1, σ.sets.length)] from rfl,
            lookupM_append_of_none hs, lookupM, if_pos (morphEq_refl ml.1)]
        · show ml.2 ∈ (σ.sets ++ [[ml.2]]).getD σ.sets.length []
          rw [getD_append_len [] [ml.2] σ.sets]
          exact List.mem_singleton_self ml.2
      obtain ⟨ih1, ih2, ih3, ih4, ih5⟩ :=
        addMLs_core rest ⟨σ.locObjs, σ.sets ++ [[ml.2]]⟩ ⟨d.db ++ [(ml.1, σ.sets.length)]⟩ hwf1
      rw [MorphDb.addMLs] at ih1 ih2 ih3 ih4 ih5
      refine ⟨ih1, ?_, ih3, ?_, ?_⟩
      · refine le_trans ?_ ih2
        simp
      · intro m lid L h
        exact ih4 m lid L (hpres m lid L h)
      · intro p hp L hget
        rcases List.mem_cons.1 hp with heq | hmem
        · subst heq
          exact ih4 p.1 p.2 L (hnew L hget)
        · exact ih5 p hmem L hget

theorem getElem?_append_pres {l ext : List Location} {lid : Nat} {L : Location}
    (h : l[lid]? = some L) : (l ++ ext)[lid]? = some L := by
  have hlt : lid < l.length := (List.getElem?_eq_some.1 h).1
  rw [List.getElem?_append_left hlt]
  exact h

theorem allocTextFiles_spec (path : String) (lineNo mat : Int) :
    ∀ (ms : List Morpheme) (σ : ObjStore),
      (allocTextFiles σ ms path lineNo mat).1.sets = σ.sets ∧
      (∃ ext, (allocTextFiles σ ms path lineNo mat).1.locObjs = σ.locObjs ++ ext) ∧
      ((allocTextFiles σ ms path lineNo mat).2.map Prod.fst = ms) ∧
      (∀ p ∈ (allocTextFiles σ ms path lineNo mat).2,
        (allocTextFiles σ ms path lineNo mat).1.locObjs[p.2]? =
          some (TextFile path lineNo mat))
  | [], σ => ⟨rfl, ⟨[], by simp [allocTextFiles]⟩, rfl,
      fun p hp => absurd hp (List.not_mem_nil p)⟩
  | m :: rest, σ => by
    obtain ⟨ih1, ⟨ext, ih2⟩, ih3, ih4⟩ :=
      allocTextFiles_spec path lineNo mat rest
        ⟨σ.locObjs ++ [TextFile path lineNo mat], σ.sets⟩
    rw [allocTextFiles]
    simp only [ObjStore.allocLoc]
    refine ⟨ih1, ⟨[TextFile path lineNo mat] ++ ext, by rw [ih2, List.append_assoc]⟩,
      by rw [List.map_cons, ih3], ?_⟩
    intro p hp
    rcases List.mem_cons.1 hp with heq | hmem
    · subst heq
      rw [ih2, List.append_assoc]
      show (σ.locObjs ++ ([TextFile path lineNo mat] ++ ext))[σ.locObjs.length]? = _
      rw [List.getElem?_append_right (le_refl σ.locObjs.length), Nat.sub_self,
        List.getElem?_append_left (by simp : (0 : Nat) < [TextFile path lineNo mat].length)]
      rfl
    · exact ih4 p hmem

theorem importLine_spec (fuel : Nat) (mdesc : String)
    (analyzer : String → Option (List Morpheme)) (rrules : Option (List ReplaceRule))
    (path : String) (mat : Int) (acc : ObjStore × CacheState × MorphDb) (i : Nat)
    (line : String) (out : ObjStore × CacheState × MorphDb)
    (hwf : DbWF acc.1 acc.2.2)
    (hok : importLine fuel mdesc analyzer rrules path mat acc (i, line) = .ok out) :
    DbWF out.1 out.2.2 ∧
    (∀ m lid L, Recorded acc.1 acc.2.2 m lid L → Recorded out.1 out.2.2 m lid L) ∧
    (∃ ms cst', getMorphemes fuel mdesc analyzer rrules acc.2.1 none (pyStrip line) =
        .ok (some ms, cst') ∧
      ∀ m ∈ ms, ∃ lid, Recorded out.1 out.2.2 m lid (TextFile path ((i : Int) + 1) mat)) := by
  rw [importLine] at hok
  cases hg : getMorphemes fuel mdesc analyzer rrules acc.2.1 none (pyStrip line) with
  | error e => rw [hg] at hok; exact absurd hok (by simp)
  | ok r =>
    obtain ⟨msOpt, cst'⟩ := r
    cases msOpt with
    | none => rw [hg] at hok; exact absurd hok (by simp)
    | some ms =>
      rw [hg] at hok
      simp only [Except.ok.injEq] at hok
      obtain ⟨ihsets, ⟨ext, ihlocs⟩, ihfst, ihrec⟩ :=
        allocTextFiles_spec path ((i : Int) + 1) mat ms acc.1
      set p := allocTextFiles acc.1 ms path ((i : Int) + 1) mat with hp
      have hwfp : DbWF p.1 acc.2.2 := by
        intro q hq
        rw [ihsets]
        exact hwf q hq
      obtain ⟨a1, a2, a3, a4, a5⟩ := addMLs_core p.2 p.1 acc.2.2 hwfp
      have hout : out = ((MorphDb.addMLs p.1 acc.2.2 p.2).1, cst',
          (MorphDb.addMLs p.1 acc.2.2 p.2).2) := hok.symm
      subst hout
      refine ⟨a3, ?_, ms, cst', rfl, ?_⟩
      · intro m lid L hrec
        refine a4 m lid L ?_
        obtain ⟨sid, h1, h2, h3, h4⟩ := hrec
        refine ⟨sid, h1, by rw [ihsets]; exact h2, ?_, ?_⟩
        · show lid ∈ p.1.sets.getD sid []
          rw [ihsets]
          exact h3
        · rw [ihlocs]
          exact getElem?_append_pres h4
      · intro m hm
        have : m ∈ p.2.map Prod.fst := by rw [ihfst]; exact hm
        obtain ⟨q, hq, hqm⟩ := List.mem_map.1 this
        refine ⟨q.2, ?_⟩
        have := a5 q hq (TextFile path ((i : Int) + 1) mat) (ihrec q hq)
        rwa [hqm] at this

theorem importFold_spec (fuel : Nat) (mdesc : String)
    (analyzer : String → Option (List Morpheme)) (rrules : Option (List ReplaceRule))
    (path : String) (mat : Int) :
    ∀ (lines : List String) (k : Nat) (acc out : ObjStore × CacheState × MorphDb),
      DbWF acc.1 acc.2.2 →
      (List.enumFrom k lines).foldlM (importLine fuel mdesc analyzer rrules path mat) acc
        = .ok out →
      DbWF out.1 out.2.2 ∧
      (∀ m lid L, Recorded acc.1 acc.2.2 m lid L → Recorded out.1 out.2.2 m lid L) ∧
      (∀ i line, lines.get? i = some line →
        ∃ cstPre ms cstPost,
          getMorphemes fuel mdesc analyzer rrules cstPre none (pyStrip line) =
            .ok (some ms, cstPost) ∧
          ∀ m ∈ ms, ∃ lid,
            Recorded out.1 out.2.2 m lid (TextFile path (((k + i : Nat) : Int) + 1) mat))
  | [], k, acc, out, hwf, hok => by
    have heq : acc = out := by
      simp only [List.enumFrom, List.foldlM] at hok
      simpa [pure, Except.pure] using hok
    subst heq
    exact ⟨hwf, fun m lid L h => h, fun i line hget => by simp at hget⟩
  | line :: rest, k, acc, out, hwf, hok => by
    rw [show List.enumFrom k (line :: rest) = (k, line) :: List.enumFrom (k + 1) rest from rfl,
      List.foldlM] at hok
    cases hstep : importLine fuel mdesc analyzer rrules path mat acc (k, line) with
    | error e =>
      rw [hstep] at hok
      exact absurd hok (by simp [Bind.bind, Except.bind])
    | ok acc2 =>
      rw [hstep] at hok
      have hok2 : (List.enumFrom (k + 1) rest).foldlM
          (importLine fuel mdesc analyzer rrules path mat) acc2 = .ok out := hok
      obtain ⟨s1, s2, s3⟩ :=
        importLine_spec fuel mdesc analyzer rrules path mat acc k line acc2 hwf hstep
      obtain ⟨ihwf, ihpres, ihrec⟩ :=
        importFold_spec fuel mdesc analyzer rrules path mat rest (k + 1) acc2 out s1 hok2
      refine ⟨ihwf, fun m lid L h => ihpres m lid L (s2 m lid L h), ?_⟩
      intro i line' hget
      cases i with
      | zero =>
        have hl : line' = line := by
          have := hget
          simp at this
          exact this.symm
        subst hl
        obtain ⟨ms, cst', hg, hrec⟩ := s3
        refine ⟨acc.2.1, ms, cst', hg, ?_⟩
        intro m hm
        obtain ⟨lid, hr⟩ := hrec m hm
        refine ⟨lid, ?_⟩
        have hidx : ((k : Int) + 1) = (((k + 0 : Nat) : Int) + 1) := by push_cast; ring
        exact hidx ▸ ihpres m lid _ hr
      | succ j =>
        have hget' : rest.get? j = some line' := by simpa using hget
        obtain ⟨cpre, ms, cpost, hg, hrec⟩ := ihrec j line' hget'
        refine ⟨cpre, ms, cpost, hg, ?_⟩
        intro m hm
        obtain ⟨lid, hr⟩ := hrec m hm
        refine ⟨lid, ?_⟩
        have hidx : ((((k + 1) + j : Nat) : Int) + 1) = (((k + (j + 1) : Nat) : Int) + 1) := by
          push_cast
          ring
        exact hidx ▸ hr

/-- C8: malformed encoding makes importFile surface the decode error before
    any mutation, leaving the db exactly as it was; on a successful read every
    morpheme extracted from the 0-based line i (through the cache-threading
    engine, from the cache state then in effect) is recorded in the result
    under a fresh TextFile(path, i+1, maturity) location object. -/
theorem importFile_spec (fuel : Nat) (mdesc : String)
    (analyzer : String → Option (List Morpheme)) (rrules : Option (List ReplaceRule))
    (σ : ObjStore) (cst : CacheState) (d : MorphDb) (path : String) (maturity : Int) :
    (∀ err : Unit,
      MorphDb.importFile fuel mdesc analyzer rrules σ cst d path (.error err) maturity =
        .error .decodeError) ∧
    (∀ lines out, DbWF σ d →
      MorphDb.importFile fuel mdesc analyzer rrules σ cst d path (.ok lines) maturity =
        .ok out →
      ∀ i line, lines.get? i = some line →
        ∃ cstPre ms cstPost,
          getMorphemes fuel mdesc analyzer rrules cstPre none (pyStrip line) =
            .ok (some ms, cstPost) ∧
          ∀ m ∈ ms, ∃ lid,
            Recorded out.1 out.2.2 m lid (TextFile path ((i : Int) + 1) maturity)) := by
  refine ⟨fun err => rfl, ?_⟩
  intro lines out hwf hok i line hget
  have hok2 : (List.enumFrom 0 lines).foldlM
      (importLine fuel mdesc analyzer rrules path maturity) (σ, cst, d) = .ok out := hok
  obtain ⟨_, _, hrec⟩ :=
    importFold_spec fuel mdesc analyzer rrules path maturity lines 0 (σ, cst, d) out hwf hok2
  obtain ⟨cpre, ms, cpost, hg, hr⟩ := hrec i line hget
  refine ⟨cpre, ms, cpost, hg, fun m hm => ?_⟩
  obtain ⟨lid, h⟩ := hr m hm
  refine ⟨lid, ?_⟩
  have hidx : (((0 + i : Nat) : Int) + 1) = ((i : Int) + 1) := by push_cast; ring
  exact hidx ▸ h

/-- Witness for C8: a decode failure surfaces as an error, and importing the
    one-line file "ab" records its morpheme under TextFile("p", 1, 0). -/
theorem importFile_spec_witness :
    MorphDb.importFile 1 "an" stubAnalyzer none ⟨[], []⟩ emptyCache ⟨[]⟩ "p"
      (.error ()) 0 = .error .decodeError ∧
    (∃ cstPre ms cstPost,
      getMorphemes 1 "an" stubAnalyzer none cstPre none (pyStrip "ab") =
        .ok (some ms, cstPost) ∧
      ∀ m ∈ ms, ∃ lid,
        Recorded (⟨[TextFile "p" 1 0], [[0]]⟩ : ObjStore) ⟨[(mkUnknown "ab", 0)]⟩
          m lid (TextFile "p" ((0 : Nat) + 1) 0)) := by
  refine ⟨(importFile_spec 1 "an" stubAnalyzer none ⟨[], []⟩ emptyCache ⟨[]⟩ "p" 0).1 (), ?_⟩
  exact (importFile_spec 1 "an" stubAnalyzer none ⟨[], []⟩ emptyCache ⟨[]⟩ "p" 0).2
    ["ab"]
    (⟨[TextFile "p" 1 0], [[0]]⟩, ⟨[(("an", "ab"), [mkUnknown "ab"])], 1, 0⟩,
      ⟨[(mkUnknown "ab", 0)]⟩)
    (fun p hp => absurd hp (List.not_mem_nil p)) rfl 0 "ab" rfl
